import Mathlib

/-!
Verification of the Colorado Digital Services Navigator crawler/auditor
scripts (`scripts/check-links.js` and `scripts/discover-services.js`).

The JavaScript sources are shallowly embedded as executable Lean
definitions.  Network effects (`fetch`) are modelled by passing the
outcome of each request explicitly; JavaScript regular expressions are
modelled by a small backtracking engine (`RE`, `reMatch`) whose
preference order mirrors the JS backtracking order (alternation tries
the left branch first, greedy quantifiers try longer matches first,
lazy quantifiers shorter first, a quantified body must consume input
on every iteration).  All definitions are structurally recursive so
that concrete instances reduce inside the kernel.
-/

namespace Navigator

/-- Lowercase a character, as JavaScript case-insensitive matching does
for ASCII input. -/
def lower (c : Char) : Char := c.toLower

/-- Whitespace class of JavaScript regular expressions (`\s`),
restricted to the ASCII range plus NBSP. -/
def isWs (c : Char) : Bool :=
  c = ' ' || c = '\t' || c = '\n' || c = '\r' || c = '\x0b' || c = '\x0c' || c = ' '

/-- Digit class of JavaScript regular expressions (`\d`). -/
def isDigitC (c : Char) : Bool := '0' ≤ c && c ≤ '9'

/-- Character class of the JavaScript `.` metacharacter: anything but a
line terminator. -/
def isDotC (c : Char) : Bool :=
  !(c = '\n' || c = '\r' || c = ' ' || c = ' ')

/-- Boolean prefix test on character lists. -/
def listPre : List Char → List Char → Bool
  | [], _ => true
  | _ :: _, [] => false
  | p :: ps, c :: cs => p = c && listPre ps cs

/-- Boolean substring test on character lists (`listSub pat s` holds
when `pat` occurs contiguously inside `s`). -/
def listSub (pat : List Char) : List Char → Bool
  | [] => pat.isEmpty
  | c :: rest => listPre pat (c :: rest) || listSub pat rest

/-- Substring test on strings; embeds JavaScript
`s.includes(pat)`. -/
def containsSub (s pat : String) : Bool := listSub pat.data s.data

/-- Suffix test on character lists; embeds JavaScript
`s.endsWith(suf)` (used for the `getBaseDomain` suffix regex). -/
def endsWithL (l suf : List Char) : Bool :=
  l.drop (l.length - suf.length) == suf

/-- Split a character list at `.` separators; embeds JavaScript
`s.split('.')` (which yields `[""]` on the empty string). -/
def splitDotAux : List Char → List Char → List (List Char)
  | [], acc => [acc.reverse]
  | c :: rest, acc =>
    if c = '.' then acc.reverse :: splitDotAux rest [] else splitDotAux rest (c :: acc)

/-- Join character-list fragments with `.`; embeds JavaScript
`parts.join('.')`. -/
def joinDots : List (List Char) → List Char
  | [] => []
  | [x] => x
  | x :: y :: rest => x ++ '.' :: joinDots (y :: rest)

/-- Trim leading and trailing whitespace; embeds JavaScript
`s.trim()`. -/
def trimL (l : List Char) : List Char :=
  ((l.dropWhile isWs).reverse.dropWhile isWs).reverse

/-- Take the first `n` characters of a string; embeds JavaScript
`s.slice(0, n)`. -/
def strTake (n : Nat) (s : String) : String := String.mk (s.data.take n)

/-! ### Regular-expression engine -/

/-- Abstract syntax of the regular-expression fragment used by the
scripts: case-insensitive literals, `.`, `\s`, `\d`, concatenation,
alternation, greedy and lazy star, and the `$` anchor. -/
inductive RE where
  | eps
  | lit (c : Char)
  | anyChar
  | ws
  | digit
  | cat (a b : RE)
  | alt (a b : RE)
  | starG (a : RE)
  | starL (a : RE)
  | eos
deriving Repr

/-- Greedy star loop: iterate the body matcher as long as it consumes
input, preferring more iterations, with fuel bounding the iteration
count (each iteration consumes at least one character). -/
def starLoopG (f : List Char → List (List Char)) : Nat → List Char → List (List Char)
  | 0, s => [s]
  | fuel + 1, s =>
    ((f s).filter (fun r => r.length < s.length)).flatMap (starLoopG f fuel) ++ [s]

/-- Lazy star loop: like `starLoopG` but preferring fewer
iterations. -/
def starLoopL (f : List Char → List (List Char)) : Nat → List Char → List (List Char)
  | 0, s => [s]
  | fuel + 1, s =>
    s :: ((f s).filter (fun r => r.length < s.length)).flatMap (starLoopL f fuel)

/-- Backtracking matcher: the list of suffixes remaining after a match
of `re` at the head of `s`, in JS backtracking preference order. -/
def reMatch : RE → List Char → List (List Char)
  | .eps, s => [s]
  | .lit _, [] => []
  | .lit c, d :: rest => if lower d = lower c then [rest] else []
  | .anyChar, [] => []
  | .anyChar, d :: rest => if isDotC d then [rest] else []
  | .ws, [] => []
  | .ws, d :: rest => if isWs d then [rest] else []
  | .digit, [] => []
  | .digit, d :: rest => if isDigitC d then [rest] else []
  | .cat a b, s => (reMatch a s).flatMap (fun r => reMatch b r)
  | .alt a b, s => reMatch a s ++ reMatch b s
  | .starG a, s => starLoopG (fun t => reMatch a t) s.length s
  | .starL a, s => starLoopL (fun t => reMatch a t) s.length s
  | .eos, s => if s.isEmpty then [[]] else []

/-- Leftmost search: the index and length of the first (leftmost,
preference-maximal) match of `re` in `s`, if any. -/
def searchAux (re : RE) : List Char → Option (Nat × Nat)
  | [] =>
    match reMatch re [] with
    | _ :: _ => some (0, 0)
    | [] => none
  | c :: rest =>
    match reMatch re (c :: rest) with
    | r :: _ => some (0, (c :: rest).length - r.length)
    | [] => (searchAux re rest).map (fun p => (p.1 + 1, p.2))

/-- Matched text of the first match (JavaScript `s.match(re)[0]`). -/
def searchStr (re : RE) (s : String) : Option String :=
  (searchAux re s.data).map (fun p => String.mk ((s.data.drop p.1).take p.2))

/-- Existence of a match (JavaScript `re.test(s)`). -/
def reTest (re : RE) (s : String) : Bool := (searchAux re s.data).isSome

/-- Sequence of case-insensitive character literals. -/
def reStr (s : String) : RE := s.data.foldr (fun c r => RE.cat (RE.lit c) r) RE.eps

/-- Sequence of regular expressions. -/
def reSeq (l : List RE) : RE := l.foldr RE.cat RE.eps

/-- Left-associated alternation, first alternative preferred. -/
def reAlts (a : RE) (rest : List RE) : RE := rest.foldl RE.alt a

/-- Greedy option (`x?`). -/
def reOpt (a : RE) : RE := RE.alt a RE.eps

/-- One-or-more (`x+`). -/
def rePlus (a : RE) : RE := RE.cat a (RE.starG a)

/-- Embeds `\s+`. -/
def wsPlus : RE := rePlus RE.ws

/-- Embeds `\s*`. -/
def wsStar : RE := RE.starG RE.ws

/-! ### check-links.js configuration: soft-404 pattern lists -/

/-- Embeds `CONFIG.soft404Patterns` of `scripts/check-links.js`:
phrases that indicate a soft 404. -/
def soft404Patterns : List RE :=
  [ reSeq [reStr "page", wsPlus,
      reAlts (reSeq [reStr "not", wsPlus, reStr "found"])
        [ reSeq [reStr "doesn\x27t", wsPlus, reStr "exist"],
          reSeq [reStr "does", wsPlus, reStr "not", wsPlus, reStr "exist"],
          reSeq [reStr "has", wsPlus, reStr "been", wsPlus, reStr "removed"] ]],
    reSeq [reStr "404", wsStar, reOpt (RE.alt (reStr "error") (reStr "page"))],
    reSeq [reStr "content", wsPlus,
      reAlts (reSeq [reStr "not", wsPlus, reStr "found"])
        [ reStr "unavailable",
          reSeq [reStr "has", wsPlus, reStr "moved"] ]],
    reSeq [reStr "this", wsPlus, reStr "page", wsPlus,
      reAlts (reSeq [reStr "no", wsPlus, reStr "longer"])
        [ reSeq [reStr "is", wsPlus, reStr "no", wsPlus, reStr "longer"],
          reSeq [reStr "cannot", wsPlus, reStr "be", wsPlus, reStr "found"] ]],
    reSeq [reStr "we", wsPlus,
      reAlts (reStr "couldn\x27t")
        [ reSeq [reStr "could", wsPlus, reStr "not"],
          reStr "can\x27t" ],
      wsPlus, reStr "find"],
    reSeq [reStr "the", wsPlus, reStr "requested", wsPlus,
      reAlts (reStr "page") [reStr "resource", reStr "url"], wsPlus,
      reAlts (reSeq [reStr "was", wsPlus, reStr "not"])
        [ reSeq [reStr "could", wsPlus, reStr "not"],
          reStr "cannot" ]],
    reSeq [reStr "sorry", RE.starL RE.anyChar,
      reAlts (reSeq [reStr "not", wsPlus, reStr "found"])
        [ reSeq [reStr "doesn\x27t", wsPlus, reStr "exist"],
          reSeq [reStr "no", wsPlus, reStr "longer", wsPlus, reStr "available"] ]],
    reSeq [reStr "has", wsPlus, reStr "been", wsPlus,
      reAlts (reStr "moved") [reStr "deleted", reStr "removed", reStr "archived"]],
    reSeq [reStr "looking", wsPlus, reStr "for", wsPlus, reStr "something?"],
    RE.alt (reStr "oops") (reSeq [reStr "uh", wsStar, reStr "oh"]) ]

/-- Embeds `CONFIG.soft404TitlePatterns` of `scripts/check-links.js`:
title signatures that suggest a 404 page. -/
def soft404TitlePatterns : List RE :=
  [ reStr "404",
    reSeq [reStr "not", wsPlus, reStr "found"],
    reSeq [reStr "page", wsPlus, reStr "missing"],
    reStr "error" ]

/-! ### Domain classifier -/

/-- Embeds `getBaseDomain` of `scripts/check-links.js`: extract the
registrable domain, with special handling of the `.state.co.us` and
`.co.us` government suffixes. -/
def getBaseDomain (hostname : String) : String :=
  let parts := splitDotAux hostname.data []
  if 3 ≤ parts.length then
    let lastThree := joinDots (parts.drop (parts.length - 3))
    if endsWithL lastThree ".state.co.us".data || endsWithL lastThree ".co.us".data then
      String.mk (joinDots (parts.drop (parts.length - 4)))
    else
      String.mk (joinDots (parts.drop (parts.length - 2)))
  else
    String.mk (joinDots (parts.drop (parts.length - 2)))

/-! ### URL parsing

The scripts use the WHATWG `URL` class of the JavaScript platform.
`parseUrl` models its behaviour on the absolute `scheme://host/path`
URLs the scripts handle: the scheme is the run of scheme characters
before the first `:` (required to start with a letter), `://` must
follow, the hostname is the authority up to a port separator with
case folded, and the pathname runs from the first `/` up to a query or
fragment delimiter, defaulting to `/`.  Percent-encoding, dot-segment
resolution, userinfo and IDNA are not modelled.  A parse failure
models the `URL` constructor throwing. -/

/-- Characters allowed in a URL scheme. -/
def schemeChar (c : Char) : Bool := c.isAlpha || isDigitC c || c = '+' || c = '-' || c = '.'

/-- Characters terminating the authority section. -/
def hostStop (c : Char) : Bool := c = '/' || c = '?' || c = '#'

/-- Characters terminating the path section. -/
def pathStop (c : Char) : Bool := c = '?' || c = '#'

/-- Parsed components of a URL, named as on the JavaScript `URL`
object (`protocol` includes the trailing colon). -/
structure UrlParts where
  protocol : String
  hostname : String
  pathname : String
deriving Repr, DecidableEq

/-- Parse an absolute URL given as a character list (see the section
comment for the modelled fragment of the WHATWG parser). -/
def parseUrlChars (l : List Char) : Option UrlParts :=
  match l.takeWhile schemeChar, l.dropWhile schemeChar with
  | s0 :: ss, ':' :: '/' :: '/' :: rest3 =>
    if s0.isAlpha then
      let auth := rest3.takeWhile (fun c => !hostStop c)
      let rest4 := rest3.dropWhile (fun c => !hostStop c)
      let host := auth.takeWhile (fun c => c ≠ ':')
      if host.isEmpty then none
      else
        let path :=
          if rest4.head? = some '/' then rest4.takeWhile (fun c => !pathStop c)
          else ['/']
        some ⟨String.mk ((s0 :: ss).map lower ++ [':']), String.mk (host.map lower), String.mk path⟩
    else none
  | _, _ => none

/-- Parse an absolute URL string; models `new URL(s)` (with `none` for
the constructor throwing). -/
def parseUrl (s : String) : Option UrlParts := parseUrlChars s.data

/-- Embeds `isSuspiciousRedirect` of `scripts/check-links.js`: a
redirect is suspicious when the URLs do not share a hostname or a base
domain; failure to parse either URL fails open to suspicious. -/
def isSuspiciousRedirect (originalUrl finalUrl : String) : Bool :=
  match parseUrl originalUrl, parseUrl finalUrl with
  | some po, some pf =>
    if po.hostname = pf.hostname then false
    else if getBaseDomain po.hostname = getBaseDomain pf.hostname then false
    else true
  | _, _ => true

/-! ### Soft-404 detection -/

/-- Result of `detectSoft404`. -/
structure Soft404Result where
  detected : Bool
  reason : Option String
deriving Repr, DecidableEq

/-- First pattern match in a list of patterns, returning the matched
substring; embeds the pattern loops of `detectSoft404`. -/
def findFirstMatch (pats : List RE) (s : String) : Option String :=
  match pats with
  | [] => none
  | p :: rest =>
    match searchStr p s with
    | some m => some m
    | none => findFirstMatch rest s

/-- Body-content half of `detectSoft404` of `scripts/check-links.js`:
scan only the first 10 KB of the page against
`CONFIG.soft404Patterns`. -/
def detectBody (html : String) : Soft404Result :=
  match findFirstMatch soft404Patterns (strTake 10000 html) with
  | some m => ⟨true, some ("Content contains: \x22" ++ m ++ "\x22")⟩
  | none => ⟨false, none⟩

/-- Embeds `detectSoft404` of `scripts/check-links.js`: the title is
checked first against `CONFIG.soft404TitlePatterns` (skipped when the
title is absent or empty, matching JS truthiness of `if (title)`);
only if no title pattern matches is the body content scanned. -/
def detectSoft404 (html : String) (title : Option String) : Soft404Result :=
  match title with
  | some t =>
    if t.isEmpty then detectBody html
    else
      match findFirstMatch soft404TitlePatterns t with
      | some _ => ⟨true, some ("Title contains 404 indicator: \x22" ++ t ++ "\x22")⟩
      | none => detectBody html
  | none => detectBody html

/-! ### Title extraction -/

/-- Case-insensitive literal prefix matcher: consume `pat` at the head
of `l`, returning the remaining input. -/
def matchPre : List Char → List Char → Option (List Char)
  | [], l => some l
  | _ :: _, [] => none
  | p :: ps, c :: cs => if lower c = lower p then matchPre ps cs else none

/-- Scanner step for `extractTitle`: attempt the regex
`<title[^>]*>([^<]+)<\/title>` at the head of `l`, returning the
captured group. -/
def titleAt (l : List Char) : Option (List Char) :=
  match matchPre "<title".data l with
  | none => none
  | some r1 =>
    let r2 := r1.dropWhile (fun c => c ≠ '>')
    match r2 with
    | '>' :: r3 =>
      let content := r3.takeWhile (fun c => c ≠ '<')
      let r4 := r3.dropWhile (fun c => c ≠ '<')
      if content.isEmpty then none
      else
        match matchPre "</title>".data r4 with
        | some _ => some content
        | none => none
    | _ => none

/-- Leftmost scan for `titleAt`, with fuel bounding the number of scan
positions (one position per character suffices). -/
def extractTitleAux : Nat → List Char → Option (List Char)
  | 0, _ => none
  | _ + 1, [] => none
  | fuel + 1, c :: rest =>
    match titleAt (c :: rest) with
    | some content => some content
    | none => extractTitleAux fuel rest

/-- Embeds `extractTitle` of `scripts/check-links.js`: the first
`<title ...>text</title>` captured text, trimmed; `none` models the JS
`null`. -/
def extractTitle (html : String) : Option String :=
  (extractTitleAux (html.data.length + 1) html.data).map
    (fun c => String.mk (trimL c))

/-! ### The health probe `checkUrl`

Network effects are made explicit: the outcome of the HEAD request and
the outcome of the conditional GET request are inputs of the embedded
function, as are the elapsed wall-clock durations observed after the
HEAD completes (`tHead`) and at the end of the probe (`tEnd`). -/

/-- Outcome of a JavaScript `fetch` call: a response, an abort
(`AbortError`, raised by the timeout controller), or another
exception carrying a message. -/
inductive FetchOutcome (ρ : Type) where
  | success (r : ρ)
  | abortErr
  | failErr (msg : String)
deriving Repr, DecidableEq

/-- The fields of the HEAD response read by `checkUrl`: `ok`,
`status`, the final URL after redirects, and the `content-type`
header (`none` models a missing header). -/
structure HeadResp where
  ok : Bool
  status : Nat
  url : String
  contentType : Option String
deriving Repr, DecidableEq

/-- The fields of the GET response relevant to `checkUrl`: its HTTP
status (never read by the source) and its body text. -/
structure GetResp where
  status : Nat
  body : String
deriving Repr, DecidableEq

/-- The closed status enumeration of an audit result. -/
inductive AuditStatus where
  | ok
  | broken
  | soft404
  | redirectSuspicious
  | timeout
  | error
deriving Repr, DecidableEq

/-- A catalog service record as consumed by `checkUrl`. -/
structure ServiceRecord where
  id : Nat
  url : String
deriving Repr, DecidableEq

/-- An audit result produced by `checkUrl` (optional fields model the
JS object fields that are present only on some branches). -/
structure AuditResult where
  service : ServiceRecord
  status : AuditStatus
  httpStatus : Option Nat
  reason : Option String
  finalUrl : Option String
  originalUrl : Option String
  elapsed : Nat
deriving Repr, DecidableEq

/-- Embeds `checkUrl` of `scripts/check-links.js`.  `head` is the
outcome of the HEAD request, `get` the outcome of the soft-404 GET
request (consulted only on the HTML branch), `tHead` the elapsed time
recorded right after the HEAD response, and `tEnd` the elapsed time
recorded at the end of the probe (used by the soft-404 and exception
branches, which re-read the clock). -/
def checkUrl (service : ServiceRecord) (head : FetchOutcome HeadResp)
    (get : FetchOutcome GetResp) (tHead tEnd : Nat) : AuditResult :=
  match head with
  | .abortErr =>
    ⟨service, .timeout, none, some "Request timed out after 15000ms", none, none, tEnd⟩
  | .failErr msg =>
    ⟨service, .error, none, some msg, none, none, tEnd⟩
  | .success hr =>
    if !hr.ok then
      ⟨service, .broken, some hr.status, some ("HTTP " ++ toString hr.status),
        some hr.url, none, tHead⟩
    else if isSuspiciousRedirect service.url hr.url then
      ⟨service, .redirectSuspicious, some hr.status, some "Redirected to different domain",
        some hr.url, some service.url, tHead⟩
    else if containsSub (hr.contentType.getD "") "text/html" then
      match get with
      | .abortErr =>
        ⟨service, .timeout, none, some "Request timed out after 15000ms", none, none, tEnd⟩
      | .failErr msg =>
        ⟨service, .error, none, some msg, none, none, tEnd⟩
      | .success gr =>
        let soft404 := detectSoft404 gr.body (extractTitle gr.body)
        if soft404.detected then
          ⟨service, .soft404, some hr.status, soft404.reason, some hr.url, none, tEnd⟩
        else
          ⟨service, .ok, some hr.status, none,
            if hr.url ≠ service.url then some hr.url else none, none, tHead⟩
    else
      ⟨service, .ok, some hr.status, none,
        if hr.url ≠ service.url then some hr.url else none, none, tHead⟩

/-! ### Batch scheduling

Each async worker is modelled as returning a completion time together
with its value; `promiseAll` models JavaScript `Promise.all`, which
delivers the results positionally (in input order) regardless of the
completion times.  The batch loops are embedded with an explicit fuel
bounding the number of iterations (the source loops terminate because
the step `concurrency` is a positive constant: 5 in the audit
pipeline, 3 in the discovery pipeline); all stated properties assume a
positive concurrency, under which the default fuel is never
exhausted. -/

/-- Models `Promise.all`: results are gathered in input order; the
completion times (first components) are ignored. -/
def promiseAll {β : Type} (tasks : List (Nat × β)) : List β := tasks.map Prod.snd

/-- Embeds the batch loop of `checkAllUrls` of `scripts/check-links.js`
(from loop index `i`, with `fuel` bounding the iteration count).
Returns the accumulated ordered results together with the number of
inter-batch pacing delays executed (the source delays only when
`i + concurrency < services.length`). -/
def checkAllUrlsGo {α β : Type} (worker : α → Nat × β) (c : Nat) (services : List α) :
    Nat → Nat → List β × Nat
  | 0, _ => ([], 0)
  | fuel + 1, i =>
    if i < services.length then
      let batch := (services.drop i).take c
      let batchResults := promiseAll (batch.map worker)
      let r := checkAllUrlsGo worker c services fuel (i + c)
      (batchResults ++ r.1, (if i + c < services.length then 1 else 0) + r.2)
    else ([], 0)

/-- Embeds `checkAllUrls` of `scripts/check-links.js`: batched
processing of all services, returning the ordered results and the
number of pacing delays executed. -/
def checkAllUrls {α β : Type} (worker : α → Nat × β) (c : Nat) (services : List α) :
    List β × Nat :=
  checkAllUrlsGo worker c services (services.length + 1) 0

/-- The consecutive slices processed by a batch loop over `items` with
concurrency `c`, starting at index `i` (same fuel discipline as
`checkAllUrlsGo`). -/
def batchSlices {α : Type} (c : Nat) (items : List α) : Nat → Nat → List (List α)
  | 0, _ => []
  | fuel + 1, i =>
    if i < items.length then
      ((items.drop i).take c) :: batchSlices c items fuel (i + c)
    else []

/-- The slices of the whole input list. -/
def slicesOf {α : Type} (c : Nat) (items : List α) : List (List α) :=
  batchSlices c items (items.length + 1) 0

/-- A discovery page-info probe result (`{url, ...info}` in the
source); `title`/`description` are `none` when `fetchPageInfo`
returned `null` or the field was absent. -/
structure PageResult where
  url : String
  title : Option String
  description : Option String
deriving Repr, DecidableEq

/-- JavaScript truthiness of `result.title`: present and non-empty. -/
def titleTruthy : Option String → Bool
  | none => false
  | some t => !t.isEmpty

/-- Embeds the candidate batch loop of `main` of
`scripts/discover-services.js` (from index `i`): returns the sequence
of worker results produced (in order), the number of pacing delays
executed (the source delays unconditionally, after every slice
including the last), and the retained candidates (results with a
truthy title). -/
def discoverGo (worker : String → Nat × PageResult) (c : Nat) (urls : List String) :
    Nat → Nat → List PageResult × Nat × List PageResult
  | 0, _ => ([], 0, [])
  | fuel + 1, i =>
    if i < urls.length then
      let batch := (urls.drop i).take c
      let results := promiseAll (batch.map worker)
      let r := discoverGo worker c urls fuel (i + c)
      (results ++ r.1, r.2.1 + 1, results.filter (fun pr => titleTruthy pr.title) ++ r.2.2)
    else ([], 0, [])

/-- The discovery candidate batch loop over the whole URL list. -/
def discoverLoop (worker : String → Nat × PageResult) (c : Nat) (urls : List String) :
    List PageResult × Nat × List PageResult :=
  discoverGo worker c urls (urls.length + 1) 0

/-! ### Sitemap resolution -/

/-- Outcome of the sitemap fetch: an exception (including a timeout
abort), or a response with its `ok` flag, HTTP status, and body
text. -/
inductive FetchResult where
  | throws
  | res (ok : Bool) (status : Nat) (body : String)
deriving Repr, DecidableEq

/-- Scanner for `xml.matchAll(/<TAG>\s*<loc>([^<]+)<\/loc>/gi)`: at
each position attempt the tag literal, optional whitespace, `<loc>`, a
non-empty run of non-`<` characters (the capture), and `</loc>`; on
success emit the trimmed capture and continue after the match, else
advance one character.  `fuel` bounds the scan steps. -/
def locsAux (tag : List Char) : Nat → List Char → List String
  | 0, _ => []
  | _ + 1, [] => []
  | fuel + 1, c :: rest =>
    match matchPre tag (c :: rest) with
    | some r1 =>
      let r2 := r1.dropWhile isWs
      match matchPre "<loc>".data r2 with
      | some r3 =>
        let content := r3.takeWhile (fun ch => ch ≠ '<')
        let r4 := r3.dropWhile (fun ch => ch ≠ '<')
        if content.isEmpty then locsAux tag fuel rest
        else
          match matchPre "</loc>".data r4 with
          | some r5 => String.mk (trimL content) :: locsAux tag fuel r5
          | none => locsAux tag fuel rest
      | none => locsAux tag fuel rest
    | none => locsAux tag fuel rest

/-- All `<TAG>…<loc>…</loc>` capture values in an XML document,
trimmed (embeds the `matchAll` + `trim` extraction of
`fetchSitemap`). -/
def extractLocs (tag : String) (xml : String) : List String :=
  locsAux tag.data (xml.data.length + 1) xml.data

/-- Embeds `fetchSitemap` of `scripts/discover-services.js` with an
explicit network `net` and fuel bounding the recursion depth (the
source recursion is bounded by the `depth > 2` guard, so nesting never
exceeds four levels from a run's entry at depth 0; fuel 4 is
sufficient and `fetchSitemap` passes it).  Returns `[]` when the
depth guard trips, the fetch throws, or the response is non-success;
on a sitemap index, recursively resolves the first 10 child sitemaps;
otherwise extracts the leaf URL entries. -/
def fetchSitemapAux (net : String → FetchResult) : Nat → String → Nat → List String
  | 0, _, _ => []
  | fuel + 1, url, depth =>
    if 2 < depth then []
    else
      match net url with
      | .throws => []
      | .res ok _ body =>
        if !ok then []
        else
          let childSitemaps := extractLocs "<sitemap>" body
          if !childSitemaps.isEmpty then
            ((childSitemaps.take 10).map (fun c => fetchSitemapAux net fuel c (depth + 1))).flatten
          else
            extractLocs "<url>" body

/-- Embeds `fetchSitemap url depth` (the entry point passes
`depth = 0`). -/
def fetchSitemap (net : String → FetchResult) (url : String) (depth : Nat) : List String :=
  fetchSitemapAux net 4 url depth

/-! ### Discovery pattern classification -/

/-- Embeds `CONFIG.servicePatterns` of `scripts/discover-services.js`:
URL patterns that suggest a citizen-facing service. -/
def servicePatterns : List RE :=
  [ reStr "/apply",
    reStr "/register",
    reStr "/renew",
    reStr "/file-",
    reStr "/request",
    reStr "/search",
    reStr "/find-",
    reStr "/lookup",
    reStr "/check-",
    reStr "/verify",
    reStr "/license",
    reStr "/permit",
    reStr "/benefits",
    reStr "/assistance",
    reSeq [reStr "/service", reOpt (RE.lit 's'), RE.lit '/'],
    reSeq [reStr "/program", reOpt (RE.lit 's'), RE.lit '/'],
    reSeq [reStr "/form", reOpt (RE.lit 's'), RE.lit '/'],
    reStr "/online-",
    reStr "/my-" ]

/-- Embeds `CONFIG.excludePatterns` of `scripts/discover-services.js`:
URL patterns that are not services. -/
def excludePatterns : List RE :=
  [ reStr "/news",
    reStr "/press",
    reStr "/blog",
    reStr "/article",
    reStr "/about-us",
    reStr "/contact-us",
    reStr "/careers",
    reStr "/jobs",
    reStr "/staff",
    reStr "/team",
    reStr "/history",
    reStr "/privacy",
    reStr "/terms",
    reStr "/accessibility",
    reStr "/sitemap",
    reSeq [reStr ".pdf", RE.eos],
    reStr ".doc",
    reStr ".xls",
    reSeq [RE.lit '.',
      reAlts (reStr "jpg") [reStr "png", reStr "gif", reStr "svg"], RE.eos],
    reStr "/tag/",
    reStr "/category/",
    reStr "/author/",
    reSeq [reStr "/page/", rePlus RE.digit],
    reSeq [RE.lit '/', RE.digit, RE.digit, RE.digit, RE.digit,
      RE.lit '/', RE.digit, RE.digit, RE.lit '/'] ]

/-- Embeds `patterns.some(p => p.test(url))`. -/
def matchesAny (pats : List RE) (u : String) : Bool := pats.any (fun p => reTest p u)

/-- Embeds `looksLikeService` of `scripts/discover-services.js`: must
match at least one service pattern and no exclude pattern. -/
def looksLikeService (u : String) : Bool :=
  if !matchesAny servicePatterns u then false
  else if matchesAny excludePatterns u then false
  else true

/-! ### URL normalization -/

/-- Embeds the JavaScript `pathname.replace(/\/$/, '')`: remove one
trailing slash if present. -/
def stripTrailSlash (l : List Char) : List Char :=
  if l.getLast? = some '/' then l.dropLast else l

/-- Embeds `normalizeUrl` of `scripts/discover-services.js`:
protocol + lowercased host + pathname without its trailing slash; on a
parse failure, the lowercased input without its trailing slash. -/
def normalizeUrl (url : String) : String :=
  match parseUrl url with
  | some p =>
    p.protocol ++ "//" ++ String.mk (p.hostname.data.map lower) ++
      String.mk (stripTrailSlash p.pathname.data)
  | none => String.mk (stripTrailSlash (url.data.map lower))

/-! ### Exit-code policy -/

/-- Embeds the exit policy of `main` of `scripts/check-links.js`: exit
code 1 when any non-`ok` result exists (`process.exit(1)`), else 0
(normal completion). -/
def auditExitCode (results : List AuditResult) : Nat :=
  if 0 < (results.filter (fun r => r.status ≠ AuditStatus.ok)).length then 1 else 0

/-- Embeds the fatal-error handler `main().catch(...)` of
`scripts/check-links.js`: `process.exit(2)`. -/
def auditFatalExitCode : Nat := 2

/-! ### Concrete fixtures used to instantiate the theorems -/

/-- A synthetic four-level nested sitemap-index chain (each level
points at the next; `s4` is a leaf sitemap). -/
def chainNet : String → FetchResult := fun u =>
  if u = "s0" then .res true 200 "<sitemap><loc>s1</loc>"
  else if u = "s1" then .res true 200 "<sitemap><loc>s2</loc>"
  else if u = "s2" then .res true 200 "<sitemap><loc>s3</loc>"
  else if u = "s3" then .res true 200 "<sitemap><loc>s4</loc>"
  else if u = "s4" then .res true 200 "<url><loc>https://x/leaf</loc>"
  else .res false 404 ""

/-- A trivial discovery worker fixture (instant completion, fixed
title). -/
def cwFixture : String → Nat × PageResult := fun u => (0, ⟨u, some "T", none⟩)

/-- A trivial audit worker fixture over `Nat` items, with completion
times distinct from values. -/
def awFixture : Nat → Nat × Nat := fun n => (100 - n, 2 * n)

/-! ## General lemmas -/

/-- Filter length is positive exactly when a member satisfies the
predicate. -/
theorem filter_length_pos_iff {α : Type} (p : α → Bool) (l : List α) :
    0 < (l.filter p).length ↔ ∃ a ∈ l, p a = true := by
  rw [List.length_pos_iff_exists_mem]
  constructor
  · rintro ⟨a, ha⟩
    exact ⟨a, (List.mem_filter.mp ha).1, (List.mem_filter.mp ha).2⟩
  · rintro ⟨a, hmem, hp⟩
    exact ⟨a, List.mem_filter.mpr ⟨hmem, hp⟩⟩

/-! ## Claim C4: `isSuspiciousRedirect` -/

/-- C4: `isSuspiciousRedirect(a, a)` is false for every well-formed
URL `a`; it is true whenever either argument fails to parse; it is
false whenever the two hostnames are identical or the base domains
(per `getBaseDomain`) are equal; and it is true in all other cases. -/
theorem isSuspiciousRedirect_spec (a b : String) :
    ((parseUrl a).isSome = true → isSuspiciousRedirect a a = false)
    ∧ (parseUrl a = none ∨ parseUrl b = none → isSuspiciousRedirect a b = true)
    ∧ (∀ pa pb, parseUrl a = some pa → parseUrl b = some pb →
        (pa.hostname = pb.hostname ∨ getBaseDomain pa.hostname = getBaseDomain pb.hostname) →
        isSuspiciousRedirect a b = false)
    ∧ (∀ pa pb, parseUrl a = some pa → parseUrl b = some pb →
        pa.hostname ≠ pb.hostname → getBaseDomain pa.hostname ≠ getBaseDomain pb.hostname →
        isSuspiciousRedirect a b = true) := by
  refine ⟨?_, ?_, ?_, ?_⟩
  · intro h
    rcases ha : parseUrl a with _ | pa
    · rw [ha] at h; simp at h
    · simp [isSuspiciousRedirect, ha]
  · rintro (ha | hb)
    · simp [isSuspiciousRedirect, ha]
    · rcases hpa : parseUrl a with _ | pa <;> simp [isSuspiciousRedirect, hpa, hb]
  · intro pa pb ha hb hsame
    rcases hsame with h | h <;> simp [isSuspiciousRedirect, ha, hb, h]
  · intro pa pb ha hb hhost hbase
    simp [isSuspiciousRedirect, ha, hb, hhost, hbase]

/-- C4 witness: a well-formed URL compared with itself is not
suspicious, and an unparsable pair is suspicious. -/
theorem isSuspiciousRedirect_spec_witness :
    isSuspiciousRedirect "https://a.com/x" "https://a.com/x" = false
    ∧ isSuspiciousRedirect "nota url" "also bad" = true := by
  refine ⟨(isSuspiciousRedirect_spec "https://a.com/x" "https://a.com/x").1 (by decide),
    (isSuspiciousRedirect_spec "nota url" "also bad").2.1 (Or.inl (by decide))⟩

/-! ## Claim C5: `looksLikeService` -/

/-- C5: `looksLikeService u` is true iff `u` matches at least one
service pattern and no exclude pattern; in particular exclusion always
wins over inclusion. -/
theorem looksLikeService_spec (u : String) :
    looksLikeService u = (matchesAny servicePatterns u && !matchesAny excludePatterns u)
    ∧ (matchesAny excludePatterns u = true → looksLikeService u = false) := by
  constructor
  · cases hs : matchesAny servicePatterns u <;>
      cases he : matchesAny excludePatterns u <;>
      simp [looksLikeService, hs, he]
  · intro he
    cases hs : matchesAny servicePatterns u <;> simp [looksLikeService, hs, he]

/-- C5 witness: a URL matching both the `/apply` service pattern and
the `/news` exclude pattern is rejected. -/
theorem looksLikeService_spec_witness :
    looksLikeService "x/news/apply" = false
    ∧ matchesAny servicePatterns "x/news/apply" = true :=
  ⟨(looksLikeService_spec "x/news/apply").2 (by decide), by decide⟩

/-! ## Claim C8: exit-code policy -/

/-- C8: the audit pipeline's exit code is non-zero exactly when a
non-`ok` result exists, equals 0 when every result is `ok`, and never
collides with the fatal exit code 2. -/
theorem auditExitCode_spec (results : List AuditResult) :
    (auditExitCode results ≠ 0 ↔ ∃ r ∈ results, r.status ≠ AuditStatus.ok)
    ∧ (auditExitCode results = 1 ∨ auditExitCode results = 0)
    ∧ auditExitCode results ≠ auditFatalExitCode
    ∧ ((∀ r ∈ results, r.status = AuditStatus.ok) → auditExitCode results = 0) := by
  have hiff : 0 < (results.filter (fun r => r.status ≠ AuditStatus.ok)).length ↔
      ∃ r ∈ results, r.status ≠ AuditStatus.ok := by
    rw [filter_length_pos_iff]
    constructor
    · rintro ⟨r, hm, hp⟩; exact ⟨r, hm, by simpa using hp⟩
    · rintro ⟨r, hm, hp⟩; exact ⟨r, hm, by simpa using hp⟩
  refine ⟨?_, ?_, ?_, ?_⟩
  · unfold auditExitCode
    split
    · next h => simpa using hiff.mp h
    · next h => simp only [ne_eq, not_true_eq_false, false_iff]
                intro hex
                exact h (hiff.mpr hex)
  · unfold auditExitCode; split <;> simp
  · unfold auditExitCode; split <;> simp [auditFatalExitCode]
  · intro hall
    unfold auditExitCode
    split
    · next h =>
      obtain ⟨r, hm, hp⟩ := hiff.mp h
      exact absurd (hall r hm) hp
    · rfl

/-- C8 witness: one `ok` result gives exit 0; one `broken` result
gives a non-zero exit distinct from the fatal code. -/
theorem auditExitCode_spec_witness :
    auditExitCode [⟨⟨1, "u"⟩, AuditStatus.ok, none, none, none, none, 0⟩] = 0
    ∧ auditExitCode [⟨⟨1, "u"⟩, AuditStatus.broken, some 500, none, none, none, 0⟩] ≠ 0 := by
  refine ⟨(auditExitCode_spec _).2.2.2 ?_, (auditExitCode_spec _).1.mpr ?_⟩
  · intro r hr
    simp at hr
    simp [hr]
  · exact ⟨⟨⟨1, "u"⟩, AuditStatus.broken, some 500, none, none, none, 0⟩, by simp, by simp⟩

/-! ## Claim C6: `fetchSitemap` fails closed -/

/-- C6: the sitemap resolver returns the empty sequence whenever the
depth guard trips (`depth > 2`), the fetch throws (including a timeout
abort), or the HTTP response is non-success; it never raises (it is a
total function). -/
theorem fetchSitemap_spec (net : String → FetchResult) (url : String) (depth : Nat) :
    (2 < depth → fetchSitemap net url depth = [])
    ∧ (net url = FetchResult.throws → fetchSitemap net url depth = [])
    ∧ (∀ status body, net url = FetchResult.res false status body →
        fetchSitemap net url depth = []) := by
  refine ⟨?_, ?_, ?_⟩
  · intro h
    simp [fetchSitemap, fetchSitemapAux, h]
  · intro h
    by_cases hd : 2 < depth <;> simp [fetchSitemap, fetchSitemapAux, h, hd]
  · intro status body h
    by_cases hd : 2 < depth <;> simp [fetchSitemap, fetchSitemapAux, h, hd]

/-- C6 witness: on the synthetic four-level nested index chain, the
3rd-level index (reached at depth 3) contributes nothing, a throwing
fetch contributes nothing, and consequently the whole chain from the
root resolves to the empty sequence. -/
theorem fetchSitemap_spec_witness :
    fetchSitemap chainNet "s3" 3 = []
    ∧ fetchSitemap chainNet "missing" 0 = []
    ∧ fetchSitemap chainNet "s0" 0 = [] := by
  refine ⟨(fetchSitemap_spec chainNet "s3" 3).1 (by decide),
    (fetchSitemap_spec chainNet "missing" 0).2.2 404 "" (by decide),
    by decide⟩

/-! ## Claim C1: `checkUrl` classification -/

/-- C1: `checkUrl` returns exactly one result whose status is one of
the six values, chosen in the decision order of the source: a
non-success HEAD yields `broken`; otherwise a suspicious redirect
yields `redirect_suspicious`; otherwise, only when the HEAD
content-type indicates HTML, soft-404 detection on the GET body yields
`soft_404`; otherwise `ok`; an aborted request yields `timeout`; any
other fetch exception yields `error`; and every branch records an
elapsed time from probe start (`tHead` for the branches decided right
after the HEAD, `tEnd` for the soft-404 and exception branches). -/
theorem checkUrl_classification (svc : ServiceRecord) (head : FetchOutcome HeadResp)
    (get : FetchOutcome GetResp) (tHead tEnd : Nat) :
    ((checkUrl svc head get tHead tEnd).status = AuditStatus.ok
      ∨ (checkUrl svc head get tHead tEnd).status = AuditStatus.broken
      ∨ (checkUrl svc head get tHead tEnd).status = AuditStatus.soft404
      ∨ (checkUrl svc head get tHead tEnd).status = AuditStatus.redirectSuspicious
      ∨ (checkUrl svc head get tHead tEnd).status = AuditStatus.timeout
      ∨ (checkUrl svc head get tHead tEnd).status = AuditStatus.error)
    ∧ ((checkUrl svc head get tHead tEnd).elapsed = tHead
      ∨ (checkUrl svc head get tHead tEnd).elapsed = tEnd)
    ∧ (head = FetchOutcome.abortErr →
        (checkUrl svc head get tHead tEnd).status = AuditStatus.timeout
        ∧ (checkUrl svc head get tHead tEnd).elapsed = tEnd)
    ∧ (∀ msg, head = FetchOutcome.failErr msg →
        (checkUrl svc head get tHead tEnd).status = AuditStatus.error
        ∧ (checkUrl svc head get tHead tEnd).reason = some msg
        ∧ (checkUrl svc head get tHead tEnd).elapsed = tEnd)
    ∧ (∀ hr, head = FetchOutcome.success hr → hr.ok = false →
        (checkUrl svc head get tHead tEnd).status = AuditStatus.broken
        ∧ (checkUrl svc head get tHead tEnd).httpStatus = some hr.status
        ∧ (checkUrl svc head get tHead tEnd).elapsed = tHead)
    ∧ (∀ hr, head = FetchOutcome.success hr → hr.ok = true →
        isSuspiciousRedirect svc.url hr.url = true →
        (checkUrl svc head get tHead tEnd).status = AuditStatus.redirectSuspicious
        ∧ (checkUrl svc head get tHead tEnd).elapsed = tHead)
    ∧ (∀ hr, head = FetchOutcome.success hr → hr.ok = true →
        isSuspiciousRedirect svc.url hr.url = false →
        containsSub (hr.contentType.getD "") "text/html" = true →
        (get = FetchOutcome.abortErr →
          (checkUrl svc head get tHead tEnd).status = AuditStatus.timeout
          ∧ (checkUrl svc head get tHead tEnd).elapsed = tEnd)
        ∧ (∀ msg, get = FetchOutcome.failErr msg →
          (checkUrl svc head get tHead tEnd).status = AuditStatus.error
          ∧ (checkUrl svc head get tHead tEnd).elapsed = tEnd)
        ∧ (∀ gr, get = FetchOutcome.success gr →
          (detectSoft404 gr.body (extractTitle gr.body)).detected = true →
          (checkUrl svc head get tHead tEnd).status = AuditStatus.soft404
          ∧ (checkUrl svc head get tHead tEnd).elapsed = tEnd)
        ∧ (∀ gr, get = FetchOutcome.success gr →
          (detectSoft404 gr.body (extractTitle gr.body)).detected = false →
          (checkUrl svc head get tHead tEnd).status = AuditStatus.ok
          ∧ (checkUrl svc head get tHead tEnd).elapsed = tHead))
    ∧ (∀ hr, head = FetchOutcome.success hr → hr.ok = true →
        isSuspiciousRedirect svc.url hr.url = false →
        containsSub (hr.contentType.getD "") "text/html" = false →
        (checkUrl svc head get tHead tEnd).status = AuditStatus.ok
        ∧ (checkUrl svc head get tHead tEnd).elapsed = tHead) := by
  refine ⟨?_, ?_, ?_, ?_, ?_, ?_, ?_, ?_⟩
  · rcases head with hr | _ | msg
    · by_cases h1 : hr.ok
      · by_cases h2 : isSuspiciousRedirect svc.url hr.url
        · simp [checkUrl, h1, h2]
        · by_cases h3 : containsSub (hr.contentType.getD "") "text/html"
          · rcases get with gr | _ | m
            · by_cases h4 : (detectSoft404 gr.body (extractTitle gr.body)).detected <;>
                simp [checkUrl, h1, h2, h3, h4]
            · simp [checkUrl, h1, h2, h3]
            · simp [checkUrl, h1, h2, h3]
          · simp [checkUrl, h1, h2, h3]
      · simp [checkUrl, h1]
    · simp [checkUrl]
    · simp [checkUrl]
  · rcases head with hr | _ | msg
    · by_cases h1 : hr.ok
      · by_cases h2 : isSuspiciousRedirect svc.url hr.url
        · simp [checkUrl, h1, h2]
        · by_cases h3 : containsSub (hr.contentType.getD "") "text/html"
          · rcases get with gr | _ | m
            · by_cases h4 : (detectSoft404 gr.body (extractTitle gr.body)).detected <;>
                simp [checkUrl, h1, h2, h3, h4]
            · simp [checkUrl, h1, h2, h3]
            · simp [checkUrl, h1, h2, h3]
          · simp [checkUrl, h1, h2, h3]
      · simp [checkUrl, h1]
    · simp [checkUrl]
    · simp [checkUrl]
  · rintro rfl
    simp [checkUrl]
  · rintro msg rfl
    simp [checkUrl]
  · rintro hr rfl hok
    simp [checkUrl, hok]
  · rintro hr rfl hok hsusp
    simp [checkUrl, hok, hsusp]
  · rintro hr rfl hok hsusp hct
    refine ⟨?_, ?_, ?_, ?_⟩
    · rintro rfl
      simp [checkUrl, hok, hsusp, hct]
    · rintro msg rfl
      simp [checkUrl, hok, hsusp, hct]
    · rintro gr rfl hdet
      simp [checkUrl, hok, hsusp, hct, hdet]
    · rintro gr rfl hdet
      simp [checkUrl, hok, hsusp, hct, hdet]
  · rintro hr rfl hok hsusp hct
    simp [checkUrl, hok, hsusp, hct]

/-- C1 witness: concrete probes hit the `broken`, `soft_404` and
`timeout` branches with the expected elapsed times. -/
theorem checkUrl_classification_witness :
    (checkUrl ⟨1, "https://a.com/x"⟩
        (FetchOutcome.success ⟨false, 404, "https://a.com/x", none⟩)
        (FetchOutcome.success ⟨200, ""⟩) 5 9).status = AuditStatus.broken
    ∧ (checkUrl ⟨1, "https://a.com/x"⟩
        (FetchOutcome.success ⟨true, 200, "https://a.com/x", some "text/html"⟩)
        (FetchOutcome.success ⟨500, "404 page"⟩) 5 9).status = AuditStatus.soft404
    ∧ (checkUrl ⟨1, "https://a.com/x"⟩ FetchOutcome.abortErr
        (FetchOutcome.success ⟨200, ""⟩) 5 9).elapsed = 9 := by
  refine ⟨((checkUrl_classification ⟨1, "https://a.com/x"⟩
      (FetchOutcome.success ⟨false, 404, "https://a.com/x", none⟩)
      (FetchOutcome.success ⟨200, ""⟩) 5 9).2.2.2.2.1 _ rfl (by decide)).1, ?_, ?_⟩
  · exact (((checkUrl_classification ⟨1, "https://a.com/x"⟩
      (FetchOutcome.success ⟨true, 200, "https://a.com/x", some "text/html"⟩)
      (FetchOutcome.success ⟨500, "404 page"⟩) 5 9).2.2.2.2.2.2.1 _ rfl (by decide)
      (by decide) (by decide)).2.2.1 _ rfl (by decide)).1
  · exact ((checkUrl_classification ⟨1, "https://a.com/x"⟩ FetchOutcome.abortErr
      (FetchOutcome.success ⟨200, ""⟩) 5 9).2.2.1 rfl).2

/-! ## Claim C10: the GET status is never inspected -/

/-- C10: `checkUrl` never inspects the HTTP status of the soft-404 GET
request: two GET responses differing only in status yield identical
results; every `httpStatus` field carried by a result is the HEAD
response's status; and on the HTML branch the GET body is scanned for
soft-404 patterns even when the GET status is non-success. -/
theorem checkUrl_getStatus_spec (svc : ServiceRecord) (head : FetchOutcome HeadResp)
    (tHead tEnd : Nat) :
    (∀ s1 s2 body,
      checkUrl svc head (FetchOutcome.success ⟨s1, body⟩) tHead tEnd
        = checkUrl svc head (FetchOutcome.success ⟨s2, body⟩) tHead tEnd)
    ∧ (∀ get st, (checkUrl svc head get tHead tEnd).httpStatus = some st →
        ∃ hr, head = FetchOutcome.success hr ∧ hr.status = st)
    ∧ (∀ hr gr, head = FetchOutcome.success hr → hr.ok = true →
        isSuspiciousRedirect svc.url hr.url = false →
        containsSub (hr.contentType.getD "") "text/html" = true →
        (detectSoft404 gr.body (extractTitle gr.body)).detected = true →
        (checkUrl svc head (FetchOutcome.success gr) tHead tEnd).status
          = AuditStatus.soft404) := by
  refine ⟨?_, ?_, ?_⟩
  · intro s1 s2 body
    rcases head with hr | _ | msg
    · by_cases h1 : hr.ok
      · by_cases h2 : isSuspiciousRedirect svc.url hr.url
        · simp [checkUrl, h1, h2]
        · by_cases h3 : containsSub (hr.contentType.getD "") "text/html" <;>
            simp [checkUrl, h1, h2, h3]
      · simp [checkUrl, h1]
    · simp [checkUrl]
    · simp [checkUrl]
  · intro get st hst
    rcases head with hr | _ | msg
    · refine ⟨hr, rfl, ?_⟩
      by_cases h1 : hr.ok
      · by_cases h2 : isSuspiciousRedirect svc.url hr.url
        · simp [checkUrl, h1, h2] at hst; omega
        · by_cases h3 : containsSub (hr.contentType.getD "") "text/html"
          · rcases get with gr | _ | m
            · by_cases h4 : (detectSoft404 gr.body (extractTitle gr.body)).detected <;>
                · simp [checkUrl, h1, h2, h3, h4] at hst; omega
            · simp [checkUrl, h1, h2, h3] at hst
            · simp [checkUrl, h1, h2, h3] at hst
          · simp [checkUrl, h1, h2, h3] at hst; omega
      · simp [checkUrl, h1] at hst; omega
    · simp [checkUrl] at hst
    · simp [checkUrl] at hst
  · rintro hr gr rfl hok hsusp hct hdet
    simp [checkUrl, hok, hsusp, hct, hdet]

/-- C10 witness: with a successful HTML HEAD, a GET that itself
returned 500 still has its body scanned (yielding `soft_404`), and
changing the GET status alone never changes the result. -/
theorem checkUrl_getStatus_spec_witness :
    (checkUrl ⟨1, "https://a.com/x"⟩
        (FetchOutcome.success ⟨true, 200, "https://a.com/x", some "text/html"⟩)
        (FetchOutcome.success ⟨500, "404 page"⟩) 5 9).status = AuditStatus.soft404
    ∧ checkUrl ⟨1, "https://a.com/x"⟩
        (FetchOutcome.success ⟨true, 200, "https://a.com/x", some "text/html"⟩)
        (FetchOutcome.success ⟨500, "404 page"⟩) 5 9
      = checkUrl ⟨1, "https://a.com/x"⟩
        (FetchOutcome.success ⟨true, 200, "https://a.com/x", some "text/html"⟩)
        (FetchOutcome.success ⟨200, "404 page"⟩) 5 9 := by
  refine ⟨(checkUrl_getStatus_spec ⟨1, "https://a.com/x"⟩
      (FetchOutcome.success ⟨true, 200, "https://a.com/x", some "text/html"⟩) 5 9).2.2
      _ ⟨500, "404 page"⟩ rfl (by decide) (by decide) (by decide) (by decide), ?_⟩
  exact (checkUrl_getStatus_spec ⟨1, "https://a.com/x"⟩
      (FetchOutcome.success ⟨true, 200, "https://a.com/x", some "text/html"⟩) 5 9).1
      500 200 "404 page"

/-! ## Batch-loop lemmas -/

/-- With positive concurrency and sufficient fuel, the audit batch
loop from index `i` yields one worker value per remaining item, in
order. -/
theorem checkAllUrlsGo_fst {α β : Type} (worker : α → Nat × β) (c : Nat)
    (items : List α) (hc : 0 < c) :
    ∀ fuel i, items.length - i < fuel →
      (checkAllUrlsGo worker c items fuel i).1
        = (items.drop i).map (fun a => (worker a).2) := by
  intro fuel
  induction fuel with
  | zero => intro i h; omega
  | succ n ih =>
    intro i h
    by_cases hi : i < items.length
    · have hdrop : (items.drop i).drop c = items.drop (i + c) := by
        rw [List.drop_drop]
      have hfun : (Prod.snd ∘ worker) = (fun a => (worker a).2) := rfl
      simp only [checkAllUrlsGo, hi, if_true]
      rw [ih (i + c) (by omega), ← hdrop]
      simp only [promiseAll, List.map_map, hfun]
      rw [← List.map_append, List.take_append_drop]
    · simp only [checkAllUrlsGo, hi, if_false]
      rw [List.drop_eq_nil_of_le (by omega)]
      rfl

/-- With positive concurrency and sufficient fuel, the slices from
index `i` flatten back to the remaining items. -/
theorem batchSlices_flatten {α : Type} (c : Nat) (items : List α) (hc : 0 < c) :
    ∀ fuel i, items.length - i < fuel →
      (batchSlices c items fuel i).flatten = items.drop i := by
  intro fuel
  induction fuel with
  | zero => intro i h; omega
  | succ n ih =>
    intro i h
    by_cases hi : i < items.length
    · have hdrop : (items.drop i).drop c = items.drop (i + c) := by
        rw [List.drop_drop]
      simp only [batchSlices, hi, if_true, List.flatten_cons]
      rw [ih (i + c) (by omega), ← hdrop, List.take_append_drop]
    · simp only [batchSlices, hi, if_false, List.flatten_nil]
      rw [List.drop_eq_nil_of_le (by omega)]

/-- Every slice produced by the batch loop has length at most the
concurrency limit. -/
theorem batchSlices_length_le {α : Type} (c : Nat) (items : List α) :
    ∀ fuel i s, s ∈ batchSlices c items fuel i → s.length ≤ c := by
  intro fuel
  induction fuel with
  | zero => intro i s h; simp [batchSlices] at h
  | succ n ih =>
    intro i s h
    by_cases hi : i < items.length
    · simp only [batchSlices, hi, if_true, List.mem_cons] at h
      rcases h with rfl | h
      · exact List.length_take_le c _
      · exact ih _ _ h
    · simp [batchSlices, hi] at h

/-- The audit loop's results are exactly the concatenation of
`Promise.all` over its slices (same fuel, any fuel). -/
theorem checkAllUrlsGo_fst_slices {α β : Type} (worker : α → Nat × β) (c : Nat)
    (items : List α) :
    ∀ fuel i,
      (checkAllUrlsGo worker c items fuel i).1
        = ((batchSlices c items fuel i).map (fun b => promiseAll (b.map worker))).flatten := by
  intro fuel
  induction fuel with
  | zero => intro i; simp [checkAllUrlsGo, batchSlices]
  | succ n ih =>
    intro i
    by_cases hi : i < items.length <;>
      simp [checkAllUrlsGo, batchSlices, hi, ih (i + c)]

/-- With positive concurrency and sufficient fuel, the audit loop
executes one pacing delay per slice except after the last slice. -/
theorem checkAllUrlsGo_snd {α β : Type} (worker : α → Nat × β) (c : Nat)
    (items : List α) (hc : 0 < c) :
    ∀ fuel i, items.length - i < fuel →
      (checkAllUrlsGo worker c items fuel i).2
        = (batchSlices c items fuel i).length - 1 := by
  intro fuel
  induction fuel with
  | zero => intro i h; omega
  | succ n ih =>
    intro i h
    by_cases hi : i < items.length
    · simp only [checkAllUrlsGo, batchSlices, hi, if_true, List.length_cons]
      rw [ih (i + c) (by omega)]
      by_cases hnext : i + c < items.length
      · have hn : 0 < n := by omega
        obtain ⟨m, rfl⟩ : ∃ m, n = m + 1 := ⟨n - 1, by omega⟩
        simp only [batchSlices, hnext, if_true, List.length_cons]
        omega
      · have hnil : ∀ f, batchSlices c items f (i + c) = [] := by
          intro f
          cases f with
          | zero => rfl
          | succ m => simp [batchSlices, hnext]
        simp [hnil, hnext]
    · simp [checkAllUrlsGo, batchSlices, hi]

/-- With positive concurrency and sufficient fuel, the discovery
candidate loop from index `i` yields one worker value per remaining
URL, in order. -/
theorem discoverGo_fst (worker : String → Nat × PageResult) (c : Nat)
    (urls : List String) (hc : 0 < c) :
    ∀ fuel i, urls.length - i < fuel →
      (discoverGo worker c urls fuel i).1
        = (urls.drop i).map (fun u => (worker u).2) := by
  intro fuel
  induction fuel with
  | zero => intro i h; omega
  | succ n ih =>
    intro i h
    by_cases hi : i < urls.length
    · have hdrop : (urls.drop i).drop c = urls.drop (i + c) := by
        rw [List.drop_drop]
      have hfun : (Prod.snd ∘ worker) = (fun u => (worker u).2) := rfl
      simp only [discoverGo, hi, if_true]
      rw [ih (i + c) (by omega), ← hdrop]
      simp only [promiseAll, List.map_map, hfun]
      rw [← List.map_append, List.take_append_drop]
    · simp only [discoverGo, hi, if_false]
      rw [List.drop_eq_nil_of_le (by omega)]
      rfl

/-- The discovery candidate loop executes one pacing delay per slice,
including after the last slice (same fuel, any fuel). -/
theorem discoverGo_delays (worker : String → Nat × PageResult) (c : Nat)
    (urls : List String) :
    ∀ fuel i,
      (discoverGo worker c urls fuel i).2.1 = (batchSlices c urls fuel i).length := by
  intro fuel
  induction fuel with
  | zero => intro i; simp [discoverGo, batchSlices]
  | succ n ih =>
    intro i
    by_cases hi : i < urls.length <;>
      simp [discoverGo, batchSlices, hi, ih (i + c)]

/-- With positive concurrency and sufficient fuel, the discovery
loop's retained candidates are the truthy-titled worker values in
input order. -/
theorem discoverGo_candidates (worker : String → Nat × PageResult) (c : Nat)
    (urls : List String) (hc : 0 < c) :
    ∀ fuel i, urls.length - i < fuel →
      (discoverGo worker c urls fuel i).2.2
        = ((urls.drop i).map (fun u => (worker u).2)).filter
            (fun pr => titleTruthy pr.title) := by
  intro fuel
  induction fuel with
  | zero => intro i h; omega
  | succ n ih =>
    intro i h
    by_cases hi : i < urls.length
    · have hdrop : (urls.drop i).drop c = urls.drop (i + c) := by
        rw [List.drop_drop]
      have hfun : (Prod.snd ∘ worker) = (fun u => (worker u).2) := rfl
      simp only [discoverGo, hi, if_true]
      rw [ih (i + c) (by omega), ← hdrop]
      conv_rhs => rw [← List.take_append_drop c (urls.drop i)]
      rw [List.map_append, List.filter_append]
      simp only [promiseAll, List.map_map, hfun]
    · simp only [discoverGo, hi, if_false]
      rw [List.drop_eq_nil_of_le (by omega)]
      rfl

/-! ## Claim C2: batch scheduling preserves order -/

/-- C2: with a positive concurrency limit (the source uses the
constants 5 and 3), each pipeline's batch loop partitions the input
into consecutive slices of at most `c` elements, gathers each slice
with `Promise.all` (which is order-preserving regardless of the
completion times returned by the workers), and produces exactly one
worker result per input item in the original input order. -/
theorem batch_order_spec {α β : Type} (worker : α → Nat × β)
    (dworker : String → Nat × PageResult) (c : Nat) (items : List α)
    (urls : List String) (hc : 0 < c) :
    (checkAllUrls worker c items).1 = items.map (fun a => (worker a).2)
    ∧ (slicesOf c items).flatten = items
    ∧ (∀ s ∈ slicesOf c items, s.length ≤ c)
    ∧ (checkAllUrls worker c items).1
        = ((slicesOf c items).map (fun b => promiseAll (b.map worker))).flatten
    ∧ (discoverLoop dworker c urls).1 = urls.map (fun u => (dworker u).2)
    ∧ (discoverLoop dworker c urls).2.2
        = (urls.map (fun u => (dworker u).2)).filter (fun pr => titleTruthy pr.title) := by
  refine ⟨?_, ?_, ?_, ?_, ?_, ?_⟩
  · simpa using checkAllUrlsGo_fst worker c items hc (items.length + 1) 0 (by omega)
  · simpa using batchSlices_flatten c items hc (items.length + 1) 0 (by omega)
  · exact fun s hs => batchSlices_length_le c items (items.length + 1) 0 s hs
  · exact checkAllUrlsGo_fst_slices worker c items (items.length + 1) 0
  · simpa using discoverGo_fst dworker c urls hc (urls.length + 1) 0 (by omega)
  · simpa using discoverGo_candidates dworker c urls hc (urls.length + 1) 0 (by omega)

/-- C2 witness: five items with concurrency 2 produce the five worker
values in input order, even though the fixture's completion times are
decreasing (later items finish first). -/
theorem batch_order_spec_witness :
    (checkAllUrls awFixture 2 [1, 2, 3, 4, 5]).1 = [2, 4, 6, 8, 10]
    ∧ (discoverLoop cwFixture 2 ["a", "b", "c"]).1
        = [⟨"a", some "T", none⟩, ⟨"b", some "T", none⟩, ⟨"c", some "T", none⟩] := by
  have h := batch_order_spec awFixture cwFixture 2 [1, 2, 3, 4, 5] ["a", "b", "c"]
    (by decide)
  exact ⟨h.1.trans (by decide), h.2.2.2.2.1.trans (by decide)⟩

/-! ## Claim C7: inter-batch pacing delays -/

/-- C7 counterexample: the claim fails on the discovery pipeline.  A
single-slice discovery run executes 1 pacing delay, not
`slices - 1 = 0`: the source (`scripts/discover-services.js` line 285)
awaits the delay unconditionally, with no skip after the last
slice. -/
theorem pacing_delays_counterexample :
    ¬ ((discoverLoop cwFixture 3 ["u"]).2.1
        = (slicesOf 3 (["u"] : List String)).length - 1) := by
  decide

/-- C7 (amended): with a positive concurrency limit, the audit
pipeline's batch loop executes one pacing delay between consecutive
slices and skips it after the last slice (delays = slices − 1), while
the discovery pipeline's batch loop executes its pacing delay after
every slice including the last (delays = slices). -/
theorem pacing_delays_spec {α β : Type} (worker : α → Nat × β)
    (dworker : String → Nat × PageResult) (c : Nat) (items : List α)
    (urls : List String) (hc : 0 < c) :
    (checkAllUrls worker c items).2 = (slicesOf c items).length - 1
    ∧ (discoverLoop dworker c urls).2.1 = (slicesOf c urls).length := by
  exact ⟨checkAllUrlsGo_snd worker c items hc (items.length + 1) 0 (by omega),
    discoverGo_delays dworker c urls (urls.length + 1) 0⟩

/-- C7 witness: five audit items at concurrency 2 make three slices
and two delays; three discovery URLs at concurrency 2 make two slices
and two delays. -/
theorem pacing_delays_spec_witness :
    (checkAllUrls awFixture 2 [1, 2, 3, 4, 5]).2 = 2
    ∧ (discoverLoop cwFixture 2 ["a", "b", "c"]).2.1 = 2 := by
  have h := pacing_delays_spec awFixture cwFixture 2 [1, 2, 3, 4, 5] ["a", "b", "c"]
    (by decide)
  exact ⟨h.1.trans (by decide), h.2.trans (by decide)⟩

/-! ## Substring lemmas (for the soft-404 reason containment) -/

/-- A take of a list is a prefix of it. -/
theorem listPre_take (l : List Char) : ∀ n, listPre (l.take n) l = true := by
  induction l with
  | nil => intro n; cases n <;> rfl
  | cons c cs ih =>
    intro n
    cases n with
    | zero => rfl
    | succ m => simp [listPre, ih m]

/-- A prefix of `l` is a prefix of `l ++ r`. -/
theorem listPre_append_right (p : List Char) :
    ∀ l r, listPre p l = true → listPre p (l ++ r) = true := by
  induction p with
  | nil => intro l r _; rfl
  | cons x xs ih =>
    intro l r h
    cases l with
    | nil => simp [listPre] at h
    | cons c cs =>
      simp only [listPre, Bool.and_eq_true] at h ⊢
      exact ⟨h.1, ih cs r h.2⟩

/-- Any contiguous extract `take n (drop i l)` occurs inside `l`. -/
theorem listSub_take_drop (i n : Nat) :
    ∀ l : List Char, listSub ((l.drop i).take n) l = true := by
  induction i with
  | zero =>
    intro l
    cases l with
    | nil => cases n <;> rfl
    | cons c cs =>
      rw [List.drop_zero]
      unfold listSub
      rw [listPre_take (c :: cs) n]
      rfl
  | succ m ih =>
    intro l
    cases l with
    | nil => cases n <;> rfl
    | cons c cs =>
      simp only [List.drop_succ_cons, listSub, Bool.or_eq_true]
      exact Or.inr (ih cs)

/-- A substring of `l` is a substring of `l ++ r`. -/
theorem listSub_append_right (p : List Char) :
    ∀ l r, listSub p l = true → listSub p (l ++ r) = true := by
  intro l
  induction l with
  | nil =>
    intro r h
    simp only [listSub, List.isEmpty_iff] at h
    subst h
    cases r <;> rfl
  | cons c cs ih =>
    intro r h
    simp only [listSub, Bool.or_eq_true] at h ⊢
    rcases h with h | h
    · exact Or.inl (listPre_append_right p (c :: cs) r h)
    · exact Or.inr (ih r h)

/-- A substring of `l` is a substring of `a ++ l`. -/
theorem listSub_append_left (p : List Char) (l : List Char) :
    ∀ a, listSub p l = true → listSub p (a ++ l) = true := by
  intro a
  induction a with
  | nil => intro h; exact h
  | cons c cs ih =>
    intro h
    simp only [List.cons_append, listSub, Bool.or_eq_true]
    exact Or.inr (ih h)

/-- The matched substring returned by `searchStr` occurs in the
searched string. -/
theorem searchStr_sub (re : RE) (s : String) (m : String) :
    searchStr re s = some m → containsSub s m = true := by
  intro h
  unfold searchStr at h
  rcases hs : searchAux re s.data with _ | p
  · rw [hs] at h; simp at h
  · rw [hs] at h
    cases h
    exact listSub_take_drop p.1 p.2 s.data

/-- The first matching pattern's matched substring occurs in the
searched string. -/
theorem findFirstMatch_sub (s m : String) :
    ∀ pats, findFirstMatch pats s = some m → containsSub s m = true := by
  intro pats
  induction pats with
  | nil => intro h; simp [findFirstMatch] at h
  | cons p rest ih =>
    intro h
    unfold findFirstMatch at h
    rcases hp : searchStr p s with _ | m'
    · rw [hp] at h; exact ih h
    · rw [hp] at h
      simp only [Option.some.injEq] at h
      subst h
      exact searchStr_sub p s m' hp

/-- A list is a prefix of itself. -/
theorem listPre_refl : ∀ l : List Char, listPre l l = true := by
  intro l
  induction l with
  | nil => rfl
  | cons c cs ih => simp [listPre, ih]

/-- A string occurs in itself. -/
theorem containsSub_self (s : String) : containsSub s s = true := by
  unfold containsSub
  cases hs : s.data with
  | nil => rfl
  | cons c cs =>
    unfold listSub
    rw [listPre_refl]
    rfl

/-- A substring of `s` occurs in `a ++ s ++ b`. -/
theorem containsSub_embed (a s b m : String) :
    containsSub s m = true → containsSub (a ++ s ++ b) m = true := by
  intro h
  unfold containsSub at h ⊢
  rw [String.data_append, String.data_append, List.append_assoc]
  exact listSub_append_left _ _ _ (listSub_append_right _ _ _ h)

/-! ## Claim C3: `detectSoft404` -/

/-- C3: `detectSoft404` checks the title first against the title
signatures and, only when no title pattern applies, scans exactly the
first 10 KB of the body against the phrase patterns (so the result
depends only on the first 10,000 characters of the body, and a phrase
first appearing beyond that bound is not flagged); when a pattern
matches, the returned reason contains the first matching pattern's
matched substring. -/
theorem detectSoft404_spec (html : String) (title : Option String) :
    detectSoft404 html title = detectSoft404 (strTake 10000 html) title
    ∧ (∀ t m, title = some t → t.isEmpty = false →
        findFirstMatch soft404TitlePatterns t = some m →
        detectSoft404 html title
          = ⟨true, some ("Title contains 404 indicator: \x22" ++ t ++ "\x22")⟩
        ∧ containsSub ("Title contains 404 indicator: \x22" ++ t ++ "\x22") m = true)
    ∧ ((∀ t, title = some t → t.isEmpty = false →
          findFirstMatch soft404TitlePatterns t = none) →
        detectSoft404 html title = detectBody html)
    ∧ (∀ m, findFirstMatch soft404Patterns (strTake 10000 html) = some m →
        detectBody html = ⟨true, some ("Content contains: \x22" ++ m ++ "\x22")⟩
        ∧ containsSub ("Content contains: \x22" ++ m ++ "\x22") m = true)
    ∧ (findFirstMatch soft404Patterns (strTake 10000 html) = none →
        detectBody html = ⟨false, none⟩) := by
  have hbody : detectBody (strTake 10000 html) = detectBody html := by
    unfold detectBody strTake
    rw [List.take_take]
    norm_num
  refine ⟨?_, ?_, ?_, ?_, ?_⟩
  · rcases title with _ | t
    · simp [detectSoft404, hbody]
    · by_cases he : t.isEmpty
      · simp [detectSoft404, he, hbody]
      · rcases hm : findFirstMatch soft404TitlePatterns t with _ | m <;>
          simp [detectSoft404, he, hm, hbody]
  · rintro t m rfl he hm
    refine ⟨by simp [detectSoft404, he, hm], ?_⟩
    have hsub : containsSub t m = true := findFirstMatch_sub t m _ hm
    exact containsSub_embed "Title contains 404 indicator: \x22" t "\x22" m hsub
  · intro hno
    rcases title with _ | t
    · simp [detectSoft404]
    · by_cases he : t.isEmpty
      · simp [detectSoft404, he]
      · rw [detectSoft404, hno t rfl (by simpa using he)]
        simp [he]
  · intro m hm
    exact ⟨by simp [detectBody, hm],
      containsSub_embed "Content contains: \x22" m "\x22" m (containsSub_self m)⟩
  · intro hno
    simp [detectBody, hno]

/-- C3 witness: a `404 …` title is flagged with a reason containing
the matched substring `404`, and a body phrase within the first 10 KB
is flagged with a reason containing the matched phrase. -/
theorem detectSoft404_spec_witness :
    detectSoft404 "body" (some "404 Not Found")
      = ⟨true, some "Title contains 404 indicator: \x22404 Not Found\x22"⟩
    ∧ containsSub "Title contains 404 indicator: \x22404 Not Found\x22" "404" = true
    ∧ detectBody "We couldn\x27t find that page"
      = ⟨true, some "Content contains: \x22We couldn\x27t find\x22"⟩ := by
  have h2 := (detectSoft404_spec "body" (some "404 Not Found")).2.1 "404 Not Found" "404"
    rfl (by decide) (by decide)
  have h4 := (detectSoft404_spec "We couldn\x27t find that page" none).2.2.2.1
    "We couldn\x27t find" (by decide)
  exact ⟨h2.1.trans (by decide), h2.2, h4.1.trans (by decide)⟩

/-! ## takeWhile/dropWhile lemmas (for the URL-normalization claim) -/

/-- When a span stops inside `l`, appending `r` changes neither the
taken prefix nor the start of the dropped suffix. -/
theorem span_append_stop (p : Char → Bool) :
    ∀ (l r : List Char), l.dropWhile p ≠ [] →
      (l ++ r).takeWhile p = l.takeWhile p
      ∧ (l ++ r).dropWhile p = l.dropWhile p ++ r := by
  intro l
  induction l with
  | nil => intro r h; simp at h
  | cons c cs ih =>
    intro r h
    by_cases hp : p c
    · have h' : cs.dropWhile p ≠ [] := by
        rw [List.dropWhile_cons, if_pos hp] at h
        exact h
      rw [List.cons_append, List.takeWhile_cons, List.takeWhile_cons,
        if_pos hp, if_pos hp, (ih r h').1, List.dropWhile_cons, List.dropWhile_cons,
        if_pos hp, if_pos hp, (ih r h').2]
      exact ⟨rfl, rfl⟩
    · rw [List.cons_append, List.takeWhile_cons, List.takeWhile_cons,
        if_neg hp, if_neg hp, List.dropWhile_cons, List.dropWhile_cons,
        if_neg hp, if_neg hp]
      exact ⟨rfl, rfl⟩

/-- When every element of `l` passes the span predicate, the taken
prefix is all of `l`. -/
theorem takeWhile_of_dropWhile_nil (p : Char → Bool) :
    ∀ l : List Char, l.dropWhile p = [] → l.takeWhile p = l := by
  intro l
  induction l with
  | nil => intro _; rfl
  | cons c cs ih =>
    intro h
    by_cases hp : p c
    · rw [List.dropWhile_cons, if_pos hp] at h
      rw [List.takeWhile_cons, if_pos hp, ih h]
    · rw [List.dropWhile_cons, if_neg hp] at h
      simp at h

/-- When every element of `l` passes the span predicate, spanning
`l ++ r` takes all of `l` plus the span of `r`, and drops the drop of
`r`. -/
theorem span_append_all (p : Char → Bool) :
    ∀ (l r : List Char), l.dropWhile p = [] →
      (l ++ r).takeWhile p = l ++ r.takeWhile p
      ∧ (l ++ r).dropWhile p = r.dropWhile p := by
  intro l
  induction l with
  | nil => intro r _; exact ⟨rfl, rfl⟩
  | cons c cs ih =>
    intro r h
    by_cases hp : p c
    · rw [List.dropWhile_cons, if_pos hp] at h
      rw [List.cons_append, List.takeWhile_cons, if_pos hp, (ih r h).1,
        List.dropWhile_cons, if_pos hp, (ih r h).2, List.cons_append]
      exact ⟨rfl, rfl⟩
    · rw [List.dropWhile_cons, if_neg hp] at h
      simp at h

/-- The head of the dropped suffix fails the span predicate. -/
theorem dropWhile_head_false (p : Char → Bool) :
    ∀ (l : List Char) (c : Char) (r : List Char), l.dropWhile p = c :: r → p c = false := by
  intro l
  induction l with
  | nil => intro c r h; simp at h
  | cons d ds ih =>
    intro c r h
    by_cases hp : p d
    · rw [List.dropWhile_cons, if_pos hp] at h
      exact ih c r h
    · rw [List.dropWhile_cons, if_neg hp] at h
      cases h
      simpa using hp

/-- The last element of `a ++ r` is the last element of a non-empty
`r`. -/
theorem getLast?_append_of_ne_nil (a r : List Char) (h : r ≠ []) :
    (a ++ r).getLast? = r.getLast? := by
  rw [List.getLast?_append]
  obtain ⟨x, hx⟩ := Option.isSome_iff_exists.mp (List.getLast?_isSome.mpr h)
  rw [hx]
  rfl

/-- Stripping the trailing slash of `pa ++ "/"` recovers `pa`. -/
theorem stripTrailSlash_concat (pa : List Char) :
    stripTrailSlash (pa ++ ['/']) = pa := by
  unfold stripTrailSlash
  rw [getLast?_append_of_ne_nil pa ['/'] (by simp), List.dropLast_concat]
  rfl

/-! ## Claim C9: trailing-slash insensitivity of `normalizeUrl` -/

/-- C9 counterexample: the claim fails for a well-formed URL whose
path already ends in a slash: `normalizeUrl` strips only one trailing
slash, so `"https://a.com/x/"` normalizes to `"https://a.com/x"` while
appending a further `"/"` normalizes to `"https://a.com/x/"`. -/
theorem normalizeUrl_slash_counterexample :
    ¬ (normalizeUrl "https://a.com/x/" = normalizeUrl ("https://a.com/x/" ++ "/")) := by
  decide

/-- C9 (amended): for every well-formed absolute URL `u` that does not
already end with `"/"`, `normalizeUrl u = normalizeUrl (u ++ "/")`. -/
theorem normalizeUrl_slash_spec (u : String) (h1 : (parseUrl u).isSome = true)
    (h2 : u.data.getLast? ≠ some '/') :
    normalizeUrl u = normalizeUrl (u ++ "/") := by
  have hcong : ∀ (pr ho : String) (pa pa' : List Char),
      parseUrl u = some ⟨pr, ho, ⟨pa⟩⟩ → parseUrl (u ++ "/") = some ⟨pr, ho, ⟨pa'⟩⟩ →
      stripTrailSlash pa = stripTrailSlash pa' →
      normalizeUrl u = normalizeUrl (u ++ "/") := by
    intro pr ho pa pa' hp hp' hstrip
    unfold normalizeUrl
    rw [hp, hp']
    dsimp only
    rw [hstrip]
  unfold parseUrl parseUrlChars at h1
  split at h1
  case h_2 => simp at h1
  case h_1 s0 ss rest3 heq1 heq2 =>
    by_cases halpha : s0.isAlpha = true
    case neg => rw [if_neg halpha] at h1; simp at h1
    rw [if_pos halpha] at h1
    simp only [] at h1
    by_cases hH0 : ((rest3.takeWhile (fun c => !hostStop c)).takeWhile
        (fun c => decide (c ≠ ':'))).isEmpty = true
    case pos => rw [if_pos hH0] at h1; simp at h1
    clear h1
    have hPu : parseUrl u = some
        ⟨⟨(s0 :: ss).map lower ++ [':']⟩,
         ⟨((rest3.takeWhile (fun c => !hostStop c)).takeWhile
             (fun c => decide (c ≠ ':'))).map lower⟩,
         ⟨if (rest3.dropWhile (fun c => !hostStop c)).head? = some '/' then
             (rest3.dropWhile (fun c => !hostStop c)).takeWhile (fun c => !pathStop c)
           else ['/']⟩⟩ := by
      unfold parseUrl parseUrlChars
      rw [heq1, heq2]
      simp only [halpha, if_true]
      rw [if_neg hH0]
    have hld : (u ++ "/").data = u.data ++ ['/'] := by
      rw [String.data_append]
    have hdwne : u.data.dropWhile schemeChar ≠ [] := by rw [heq2]; simp
    have h3 := span_append_stop schemeChar u.data ['/'] hdwne
    have htw' : (u.data ++ ['/']).takeWhile schemeChar = s0 :: ss := h3.1.trans heq1
    have hdw' : (u.data ++ ['/']).dropWhile schemeChar
        = ':' :: '/' :: '/' :: (rest3 ++ ['/']) := by
      rw [h3.2, heq2]; rfl
    rcases hR4 : rest3.dropWhile (fun c => !hostStop c) with _ | ⟨c0, r5⟩
    · -- no authority terminator inside `u`: the appended slash becomes the path
      have hsA := span_append_all (fun c => !hostStop c) rest3 ['/'] hR4
      have hauth' : (rest3 ++ ['/']).takeWhile (fun c => !hostStop c)
          = rest3.takeWhile (fun c => !hostStop c) := by
        rw [hsA.1, takeWhile_of_dropWhile_nil _ _ hR4,
          show List.takeWhile (fun c => !hostStop c) ['/'] = [] from rfl,
          List.append_nil]
      have hrest4' : (rest3 ++ ['/']).dropWhile (fun c => !hostStop c) = ['/'] := hsA.2
      refine hcong ⟨(s0 :: ss).map lower ++ [':']⟩ ⟨((rest3.takeWhile (fun c => !hostStop c)).takeWhile (fun c => decide (c ≠ ':'))).map lower⟩ ['/'] ['/'] ?_ ?_ rfl
      · rw [hPu, hR4]
        rfl
      · unfold parseUrl parseUrlChars
        rw [hld, htw', hdw']
        simp only [halpha, if_true]
        rw [hauth', if_neg hH0, hrest4']
        rfl
    · -- the authority section already stops inside `u`
      have hne : rest3.dropWhile (fun c => !hostStop c) ≠ [] := by rw [hR4]; simp
      have hsB := span_append_stop (fun c => !hostStop c) rest3 ['/'] hne
      have hauth' : (rest3 ++ ['/']).takeWhile (fun c => !hostStop c)
          = rest3.takeWhile (fun c => !hostStop c) := hsB.1
      have hrest4' : (rest3 ++ ['/']).dropWhile (fun c => !hostStop c)
          = c0 :: (r5 ++ ['/']) := by
        rw [hsB.2, hR4]
        rfl
      by_cases hslash : c0 = '/'
      · -- path present: spans on the path predicate
        subst hslash
        rcases hpd : ('/' :: r5).dropWhile (fun c => !pathStop c) with _ | ⟨e0, e5⟩
        · -- the path runs to the end of `u`: the appended slash extends it
          have hsP := span_append_all (fun c => !pathStop c) ('/' :: r5) ['/'] hpd
          have hpathu : ('/' :: r5).takeWhile (fun c => !pathStop c) = '/' :: r5 :=
            takeWhile_of_dropWhile_nil _ _ hpd
          have hpath' : (('/' :: r5) ++ ['/']).takeWhile (fun c => !pathStop c)
              = ('/' :: r5) ++ ['/'] := by
            rw [hsP.1,
              show List.takeWhile (fun c => !pathStop c) ['/'] = ['/'] from rfl]
          have hlastu : u.data.getLast? = ('/' :: r5).getLast? := by
            have hsplit : u.data
                = ((s0 :: ss) ++ [':', '/', '/']
                    ++ rest3.takeWhile (fun c => !hostStop c)) ++ ('/' :: r5) := by
              conv_lhs => rw [← List.takeWhile_append_dropWhile
                (p := schemeChar) (l := u.data), heq1, heq2]
              conv_lhs => rw [← List.takeWhile_append_dropWhile
                (p := fun c => !hostStop c) (l := rest3), hR4]
              simp [List.append_assoc]
            rw [hsplit, getLast?_append_of_ne_nil _ _ (by simp)]
          have hlast : ('/' :: r5).getLast? ≠ some '/' := by
            rw [← hlastu]
            exact h2
          refine hcong ⟨(s0 :: ss).map lower ++ [':']⟩ ⟨((rest3.takeWhile (fun c => !hostStop c)).takeWhile (fun c => decide (c ≠ ':'))).map lower⟩ ('/' :: r5) (('/' :: r5) ++ ['/']) ?_ ?_ ?_
          · rw [hPu, hR4, List.head?_cons, if_pos rfl, hpathu]
          · unfold parseUrl parseUrlChars
            rw [hld, htw', hdw']
            simp only [halpha, if_true]
            rw [hauth', if_neg hH0, hrest4', List.head?_cons, if_pos rfl,
              ← List.cons_append, hpath']
          · rw [stripTrailSlash_concat]
            unfold stripTrailSlash
            rw [if_neg hlast]
        · -- a query or fragment terminates the path inside `u`
          have hneP : ('/' :: r5).dropWhile (fun c => !pathStop c) ≠ [] := by
            rw [hpd]; simp
          have hsP := span_append_stop (fun c => !pathStop c) ('/' :: r5) ['/'] hneP
          refine hcong ⟨(s0 :: ss).map lower ++ [':']⟩ ⟨((rest3.takeWhile (fun c => !hostStop c)).takeWhile (fun c => decide (c ≠ ':'))).map lower⟩ (('/' :: r5).takeWhile (fun c => !pathStop c))
            (('/' :: r5).takeWhile (fun c => !pathStop c)) ?_ ?_ rfl
          · rw [hPu, hR4, List.head?_cons, if_pos rfl]
          · unfold parseUrl parseUrlChars
            rw [hld, htw', hdw']
            simp only [halpha, if_true]
            rw [hauth', if_neg hH0, hrest4', List.head?_cons, if_pos rfl,
              ← List.cons_append, hsP.1]
      · -- the authority is terminated by a query or fragment: path is `/`
        refine hcong ⟨(s0 :: ss).map lower ++ [':']⟩ ⟨((rest3.takeWhile (fun c => !hostStop c)).takeWhile (fun c => decide (c ≠ ':'))).map lower⟩ ['/'] ['/'] ?_ ?_ rfl
        · rw [hPu, hR4, List.head?_cons, if_neg (by simpa using hslash)]
        · unfold parseUrl parseUrlChars
          rw [hld, htw', hdw']
          simp only [halpha, if_true]
          rw [hauth', if_neg hH0, hrest4', List.head?_cons,
            if_neg (by simpa using hslash)]

/-- C9 witness: a concrete catalog-style URL without a trailing slash
normalizes equally with and without an appended slash. -/
theorem normalizeUrl_slash_spec_witness :
    normalizeUrl "https://a.com/x" = normalizeUrl ("https://a.com/x" ++ "/") :=
  normalizeUrl_slash_spec "https://a.com/x" (by decide) (by decide)

end Navigator
